import Mathlib

/-!
# Verification of the mcp-server tool registry and content-hash cache

Shallow embedding of `src/tools/cache_manager.py` (`CacheManager`),
`src/tools/base_tool.py` (`Tool`, `ToolRegistry`) and
`src/tools/file_tools.py` (`ReadFileTool.get_cache_key`), together with
theorems settling the frozen claims about the specification.

Modelling conventions:
* Python strings are `String`; byte strings of ASCII text are `List Nat`.
* The file system is a pure map `path → Option FileData` (content and
  mtime); no operation in the model mutates it, matching the claims,
  none of which involve a tool writing files.
* `hashlib.md5(...).hexdigest()` is implemented bit-for-bit as `md5Hex`
  below (verified against the standard test vectors), so concrete
  counterexamples evaluate the very hash the source uses.  Theorems that
  quantify over all inputs take the digest function as a parameter
  `hash : String → String` with an injectivity hypothesis — the standard
  collision-freeness idealization of MD5 that the caching design assumes.
* Exception paths of the Python code (`except` blocks that log and fall
  back to a miss / no-op) are not reachable in the pure model, which has
  no I/O failures.
-/

set_option maxRecDepth 4096

namespace MCP

/-! ## MD5 (hashlib.md5(...).hexdigest()) -/

/-- Per-round left-rotate amounts of MD5. -/
def md5Shifts : List Nat :=
  [7,12,17,22, 7,12,17,22, 7,12,17,22, 7,12,17,22,
   5, 9,14,20, 5, 9,14,20, 5, 9,14,20, 5, 9,14,20,
   4,11,16,23, 4,11,16,23, 4,11,16,23, 4,11,16,23,
   6,10,15,21, 6,10,15,21, 6,10,15,21, 6,10,15,21]

/-- MD5 round constants, `floor(abs(sin(i+1)) * 2^32)`. -/
def md5K : List Nat :=
  [0xd76aa478, 0xe8c7b756, 0x242070db, 0xc1bdceee,
   0xf57c0faf, 0x4787c62a, 0xa8304613, 0xfd469501,
   0x698098d8, 0x8b44f7af, 0xffff5bb1, 0x895cd7be,
   0x6b901122, 0xfd987193, 0xa679438e, 0x49b40821,
   0xf61e2562, 0xc040b340, 0x265e5a51, 0xe9b6c7aa,
   0xd62f105d, 0x02441453, 0xd8a1e681, 0xe7d3fbc8,
   0x21e1cde6, 0xc33707d6, 0xf4d50d87, 0x455a14ed,
   0xa9e3e905, 0xfcefa3f8, 0x676f02d9, 0x8d2a4c8a,
   0xfffa3942, 0x8771f681, 0x6d9d6122, 0xfde5380c,
   0xa4beea44, 0x4bdecfa9, 0xf6bb4b60, 0xbebfbc70,
   0x289b7ec6, 0xeaa127fa, 0xd4ef3085, 0x04881d05,
   0xd9d4d039, 0xe6db99e5, 0x1fa27cf8, 0xc4ac5665,
   0xf4292244, 0x432aff97, 0xab9423a7, 0xfc93a039,
   0x655b59c3, 0x8f0ccc92, 0xffeff47d, 0x85845dd1,
   0x6fa87e4f, 0xfe2ce6e0, 0xa3014314, 0x4e0811a1,
   0xf7537e82, 0xbd3af235, 0x2ad7d2bb, 0xeb86d391]

/-- Left rotation of a 32-bit word (argument assumed `< 2^32`). -/
def rotl32 (x c : Nat) : Nat :=
  ((x <<< c) % 4294967296) ||| (x >>> (32 - c))

/-- Bytes of an ASCII string (UTF-8 agrees with code points below 128;
all concrete strings hashed in this development are ASCII). -/
def strBytes (s : String) : List Nat := s.data.map Char.toNat

/-- MD5 padding: append `0x80`, zero-pad to 56 mod 64, append the
64-bit little-endian bit length. -/
def padMessage (msg : List Nat) : List Nat :=
  let bitLen := msg.length * 8
  let withOne := msg ++ [0x80]
  let padLen := (120 - withOne.length % 64) % 64
  withOne ++ List.replicate padLen 0 ++
    (List.range 8).map (fun i => (bitLen >>> (8 * i)) % 256)

/-- Split a 64-byte chunk into 16 little-endian 32-bit words. -/
def toWords : List Nat → List Nat
  | b0 :: b1 :: b2 :: b3 :: rest =>
      (b0 + b1 * 256 + b2 * 65536 + b3 * 16777216) :: toWords rest
  | _ => []

/-- One MD5 round on state `(A, B, C, D)` with message words `M`. -/
def md5Round (M : List Nat) (st : Nat × Nat × Nat × Nat) (i : Nat) :
    Nat × Nat × Nat × Nat :=
  let A := st.1
  let B := st.2.1
  let C := st.2.2.1
  let D := st.2.2.2
  let fg : Nat × Nat :=
    if i < 16 then ((B &&& C) ||| ((B ^^^ 0xFFFFFFFF) &&& D), i)
    else if i < 32 then ((D &&& B) ||| ((D ^^^ 0xFFFFFFFF) &&& C), (5 * i + 1) % 16)
    else if i < 48 then (B ^^^ C ^^^ D, (3 * i + 5) % 16)
    else (C ^^^ (B ||| (D ^^^ 0xFFFFFFFF)), (7 * i) % 16)
  let f2 := (fg.1 + A + md5K.getD i 0 + M.getD fg.2 0) % 4294967296
  (D, (B + rotl32 f2 (md5Shifts.getD i 0)) % 4294967296, B, C)

/-- Process one 64-byte chunk. -/
def processChunk (st : Nat × Nat × Nat × Nat) (chunk : List Nat) :
    Nat × Nat × Nat × Nat :=
  let M := toWords chunk
  let r := (List.range 64).foldl (md5Round M) st
  ((st.1 + r.1) % 4294967296, (st.2.1 + r.2.1) % 4294967296,
   (st.2.2.1 + r.2.2.1) % 4294967296, (st.2.2.2 + r.2.2.2) % 4294967296)

/-- Split a padded message into 64-byte chunks (structural recursion on a
fuel bound, so that the kernel can evaluate it). -/
def chunksAux : Nat → List Nat → List (List Nat)
  | 0, _ => []
  | _, [] => []
  | fuel + 1, l => l.take 64 :: chunksAux fuel (l.drop 64)

/-- Split a padded message into 64-byte chunks. -/
def chunks64 (l : List Nat) : List (List Nat) := chunksAux l.length l

/-- Lower-case hex digit. -/
def hexDigit (n : Nat) : Char :=
  if n < 10 then Char.ofNat (48 + n) else Char.ofNat (87 + n)

/-- Two hex digits of a byte. -/
def byteHex (b : Nat) : List Char := [hexDigit (b / 16), hexDigit (b % 16)]

/-- Hex rendering of a 32-bit word, least significant byte first. -/
def wordHexLE (w : Nat) : List Char :=
  byteHex (w % 256) ++ byteHex ((w >>> 8) % 256) ++
  byteHex ((w >>> 16) % 256) ++ byteHex ((w >>> 24) % 256)

/-- `hashlib.md5(s.encode()).hexdigest()` for ASCII `s`. -/
def md5Hex (s : String) : String :=
  let padded := padMessage (strBytes s)
  let st := (chunks64 padded).foldl processChunk
    (0x67452301, 0xefcdab89, 0x98badcfe, 0x10325476)
  ⟨wordHexLE st.1 ++ wordHexLE st.2.1 ++ wordHexLE st.2.2.1 ++ wordHexLE st.2.2.2⟩

example : md5Hex "" = "d41d8cd98f00b204e9800998ecf8427e" := by decide
example : md5Hex "a" = "0cc175b9c0f1b6a831c399e269772661" := by decide
example : md5Hex "abc" = "900150983cd24fb0d6963f7d28e17f72" := by decide

/-! ## File system model

The cache reads files only to hash their content (`_get_file_hash`) and,
in `ReadFileTool.get_cache_key`, to ask for existence and mtime.  A file
is therefore modelled by its content together with its mtime. -/

structure FileData where
  content : String
  mtime : Nat
  deriving DecidableEq

/-- The file system: a pure map from path to file data (`none` = the path
does not exist). -/
def FS : Type := String → Option FileData

/-! ## Cache Store (`src/tools/cache_manager.py`, class `CacheManager`) -/

/-- `CacheManager._get_file_hash`: `"nonexistent"` sentinel for a missing
file, otherwise the hex digest of the file's bytes.  (The `except` fallback
to `str(os.path.getmtime(...))` is unreachable in the pure model.) -/
def getFileHash (hash : String → String) (fs : FS) (filePath : String) : String :=
  match fs filePath with
  | none => "nonexistent"
  | some fd => hash fd.content

/-- `"|".join(key_parts)`. -/
def joinParts : List String → String
  | [] => ""
  | [p] => p
  | p :: q :: ps => p ++ "|" ++ joinParts (q :: ps)

/-- `CacheManager._build_cache_key`: hash of the base key joined with one
`"path:hash"` fragment per dependency, in the caller-supplied order.
(`file_deps=None` and `file_deps=[]` behave identically in the source
— `if file_deps:` — so dependencies are passed as a plain list.) -/
def buildCacheKey (hash : String → String) (fs : FS)
    (baseKey : String) (fileDeps : List String) : String :=
  hash (joinParts (baseKey ::
    fileDeps.map (fun p => p ++ ":" ++ getFileHash hash fs p)))

/-- One `<full_key>.cache` file in the cache directory: its key, the
stored blob (the tool's string result; its pickled size is modelled as
the string length) and its last-access time. -/
structure Entry where
  key : String
  value : String
  atime : Nat
  deriving DecidableEq

def entrySize (e : Entry) : Nat := e.value.length

/-- In-memory and on-disk state of a `CacheManager`: the `*.cache` files,
the `_file_hashes` map, the three counters, a logical clock standing for
wall-clock time, and the configured size limit. -/
structure CacheState where
  entries : List Entry
  fileHashes : List (String × String)
  hits : Nat
  misses : Nat
  invalidations : Nat
  clock : Nat
  maxSizeMb : Nat
  deriving DecidableEq

/-- `CacheManager()` with the default `max_size_mb=100` and an empty
cache directory. -/
def initCache : CacheState :=
  { entries := [], fileHashes := [], hits := 0, misses := 0,
    invalidations := 0, clock := 0, maxSizeMb := 100 }

/-- Python dict lookup on an insertion-ordered association list. -/
def assocLookup {α : Type} : List (String × α) → String → Option α
  | [], _ => none
  | (k, v) :: rest, key => if k = key then some v else assocLookup rest key

/-- Python dict assignment: replace in place, else append. -/
def assocSet {α : Type} : List (String × α) → String → α → List (String × α)
  | [], key, v => [(key, v)]
  | (k, w) :: rest, key, v =>
      if k = key then (key, v) :: rest else (k, w) :: assocSet rest key v

/-- Find the cache file with the given key. -/
def entryLookup : List Entry → String → Option Entry
  | [], _ => none
  | e :: es, key => if e.key = key then some e else entryLookup es key

/-- Overwrite or create the cache file with the given key. -/
def entrySet : List Entry → String → String → Nat → List Entry
  | [], key, v, t => [⟨key, v, t⟩]
  | e :: es, key, v, t =>
      if e.key = key then ⟨key, v, t⟩ :: es else e :: entrySet es key v t

/-- `cache_path.touch()`: refresh the access time of the matching file. -/
def entryTouch (es : List Entry) (key : String) (now : Nat) : List Entry :=
  es.map (fun e => if e.key = key then { e with atime := now } else e)

/-- Stable insertion by access time (oldest first). -/
def insertByAtime (e : Entry) : List Entry → List Entry
  | [] => [e]
  | x :: xs => if e.atime ≤ x.atime then e :: x :: xs else x :: insertByAtime e xs

/-- `cache_files.sort(key=lambda x: x[1])`: stable sort, oldest access
first. -/
def sortByAtime : List Entry → List Entry
  | [] => []
  | e :: es => insertByAtime e (sortByAtime es)

/-- The deletion loop of `_cleanup_old_entries`: remove files (oldest
access first) until the running total is within the limit. -/
def evictLoop (maxBytes : Nat) : List Entry → Nat → List Entry
  | [], _ => []
  | e :: rest, total =>
      let total2 := total - entrySize e
      if total2 ≤ maxBytes then rest else evictLoop maxBytes rest total2

/-- `CacheManager._cleanup_old_entries`: if the stored bytes exceed
`max_size_mb`, delete least-recently-accessed files until under the
limit. -/
def cleanup (maxBytes : Nat) (entries : List Entry) : List Entry :=
  let total := (entries.map entrySize).sum
  if total ≤ maxBytes then entries
  else evictLoop maxBytes (sortByAtime entries) total

/-- `CacheManager.get`: build the composite key, look the blob up; on a
miss count a miss and return `None`, on a hit touch the file, count a hit
and return the value. -/
def cacheGet (hash : String → String) (fs : FS) (st : CacheState)
    (cacheKey : String) (fileDeps : List String) : Option String × CacheState :=
  let fullKey := buildCacheKey hash fs cacheKey fileDeps
  match entryLookup st.entries fullKey with
  | none => (none, { st with misses := st.misses + 1, clock := st.clock + 1 })
  | some e =>
      (some e.value,
        { st with entries := entryTouch st.entries fullKey st.clock,
                  hits := st.hits + 1, clock := st.clock + 1 })

/-- `CacheManager.set`: build the composite key, write the blob, record
each dependency's current hash in `_file_hashes`, then run the cleanup
sweep. -/
def cacheSet (hash : String → String) (fs : FS) (st : CacheState)
    (cacheKey : String) (value : String) (fileDeps : List String) : CacheState :=
  let fullKey := buildCacheKey hash fs cacheKey fileDeps
  let entries1 := entrySet st.entries fullKey value st.clock
  let hashes1 := fileDeps.foldl
    (fun m p => assocSet m p (getFileHash hash fs p)) st.fileHashes
  { st with
      entries := cleanup (st.maxSizeMb * 1024 * 1024) entries1,
      fileHashes := hashes1,
      clock := st.clock + 1 }

/-- Python's `needle in haystack` on strings. -/
def strContains (haystack needle : String) : Bool :=
  (List.range (haystack.length + 1)).any
    (fun i => needle.data.isPrefixOf (haystack.data.drop i))

/-- `CacheManager.invalidate_file`: recompute the path's hash; if a
previously recorded hash exists (and is truthy) and differs, delete every
`*.cache` file whose *name* contains the first 8 hex characters of the
hash of the path — a heuristic, as the source comments note — update the
recorded hash and the invalidation counter, and return the number of
files deleted; otherwise return 0. -/
def invalidateFile (hash : String → String) (fs : FS) (st : CacheState)
    (filePath : String) : Nat × CacheState :=
  let currentHash := getFileHash hash fs filePath
  match assocLookup st.fileHashes filePath with
  | none => (0, st)
  | some oldHash =>
      if oldHash ≠ "" ∧ oldHash ≠ currentHash then
        let pattern := (hash filePath).take 8
        let deleted := st.entries.filter
          (fun e => strContains (e.key ++ ".cache") pattern)
        let remaining := st.entries.filter
          (fun e => !(strContains (e.key ++ ".cache") pattern))
        (deleted.length,
          { st with
              entries := remaining,
              fileHashes := assocSet st.fileHashes filePath currentHash,
              invalidations := st.invalidations + deleted.length })
      else (0, st)

/-- `CacheManager.clear`: unlink every `*.cache` file, clear
`_file_hashes`, return the number of files removed.  The counters are
not touched. -/
def cacheClear (st : CacheState) : Nat × CacheState :=
  (st.entries.length, { st with entries := [], fileHashes := [] })

/-- The fields of the dict returned by `CacheManager.get_stats` (the
`hit_rate` percentage string and the MB division are rendered from the
same counters and are not modelled separately; `cacheSizeBytes` is the
byte total the MB figure is derived from). -/
structure CacheStats where
  hits : Nat
  misses : Nat
  invalidations : Nat
  cacheSizeBytes : Nat
  entryCount : Nat
  maxSizeMb : Nat
  deriving DecidableEq

/-- `CacheManager.get_stats`. -/
def getStats (st : CacheState) : CacheStats :=
  { hits := st.hits, misses := st.misses, invalidations := st.invalidations,
    cacheSizeBytes := (st.entries.map entrySize).sum,
    entryCount := st.entries.length, maxSizeMb := st.maxSizeMb }

/-! ## Tool Contract and Registry (`src/tools/base_tool.py`) -/

/-- `ToolMetadata` dataclass. -/
structure ToolMetadata where
  name : String
  description : String
  category : String
  contextModes : List String
  requiresGit : Bool := false
  requiresFilesystem : Bool := false
  isDestructive : Bool := false
  performanceCost : String := "low"
  deriving DecidableEq

/-- Keyword arguments of a tool call (`**kwargs`), as a name→value map. -/
def Params : Type := List (String × String)

/-- `ToolError(message, tool_name)`.  (`details` is derived from the
message at the raise sites and carries no extra decidable content.) -/
structure ToolError where
  toolName : String
  message : String
  deriving DecidableEq

/-- A tool: its metadata plus the overridable methods the registry calls.
In the repository every tool's behaviour is a pure function of its
parameters and the file system, so a "class" and the instance it
constructs are the same value; `validate_params` either returns
normalized parameters or raises a `ToolError`, `get_cache_key` may read
the file system (`ReadFileTool` does), `get_file_dependencies` is pure in
the parameters, and the pre/post hooks are no-ops whose *invocation* the
execution pipeline records (no tool in the repository overrides them). -/
structure ToolImpl where
  metadata : ToolMetadata
  validateParams : Params → Except ToolError Params := fun p => .ok p
  getCacheKeyFn : Params → FS → Option String := fun _ _ => none
  getFileDepsFn : Params → Option (List String) := fun _ => none
  applyFn : Params → FS → String

/-- `Tool.can_execute`: `if context and context not in
self.metadata.context_modes: return False; return True` — note the
Python truthiness test, under which the empty string acts like `None`. -/
def canExecute (md : ToolMetadata) (context : Option String) : Bool :=
  match context with
  | none => true
  | some c => if ¬c.isEmpty ∧ ¬md.contextModes.contains c then false else true

/-- `ToolRegistry` state: `_tools` (name → registered class),
`_instances` (name → lazily constructed singleton), `_contexts`
(context → tool names). -/
structure RegistryState where
  tools : List (String × ToolImpl)
  instances : List (String × ToolImpl)
  contexts : List (String × List String)

/-- `ToolRegistry()`. -/
def initRegistry : RegistryState :=
  { tools := [], instances := [],
    contexts := [("exploration", []), ("debugging", []),
                 ("refactoring", []), ("general", [])] }

/-- `ToolRegistry.register_tool`: read the class's metadata, store the
class under its name, and append the name to each declared context
bucket (creating unknown buckets).  `_instances` is not touched. -/
def registerTool (st : RegistryState) (toolClass : ToolImpl) : RegistryState :=
  let md := toolClass.metadata
  let contexts1 := md.contextModes.foldl
    (fun ctxs c =>
      match assocLookup ctxs c with
      | some names => assocSet ctxs c (names ++ [md.name])
      | none => ctxs ++ [(c, [md.name])])
    st.contexts
  { st with tools := assocSet st.tools md.name toolClass, contexts := contexts1 }

/-- `ToolRegistry.get_tool`: return the memoized instance, constructing
it from `_tools` on first access; `none` if the name is unknown. -/
def getTool (st : RegistryState) (name : String) : Option ToolImpl × RegistryState :=
  match assocLookup st.instances name with
  | some inst => (some inst, st)
  | none =>
      match assocLookup st.tools name with
      | some cls => (some cls, { st with instances := assocSet st.instances name cls })
      | none => (none, st)

/-- The calls `execute_tool` makes on the tool and the cache, in order —
the observable trace of one execution. -/
inductive ExecEvent where
  | validateEv
  | cacheGetEv
  | preHookEv
  | applyEv
  | postHookEv
  | cacheSetEv
  deriving DecidableEq

/-- Result of `ToolRegistry.execute_tool`: the returned string or the
raised `ToolError`, the updated registry and cache states, and the trace
of calls made. -/
structure ExecResult where
  outcome : Except ToolError String
  registry : RegistryState
  cache : CacheState
  trace : List ExecEvent

/-- `ToolRegistry.execute_tool`: resolve the tool (not-found error if
absent), check `can_execute`, validate parameters (a `ToolError`
propagates unchanged), consult the cache when `get_cache_key` returns a
truthy key and return a hit immediately; otherwise run
`pre_execute_hook`, `apply`, `post_execute_hook`, recompute the
dependencies and store the result. -/
def executeTool (hash : String → String) (fs : FS)
    (reg : RegistryState) (cache : CacheState)
    (name : String) (context : Option String) (kwargs : Params) : ExecResult :=
  match getTool reg name with
  | (none, reg1) =>
      ⟨.error ⟨name, "Tool " ++ name ++ " not found"⟩, reg1, cache, []⟩
  | (some tool, reg1) =>
      if ¬canExecute tool.metadata context then
        ⟨.error ⟨name, "Tool " ++ name ++ " cannot execute in context"⟩,
          reg1, cache, []⟩
      else
        match tool.validateParams kwargs with
        | .error e => ⟨.error e, reg1, cache, [.validateEv]⟩
        | .ok vp =>
            match tool.getCacheKeyFn vp fs with
            | some k =>
                if k.isEmpty then
                  ⟨.ok (tool.applyFn vp fs), reg1, cache,
                    [.validateEv, .preHookEv, .applyEv, .postHookEv]⟩
                else
                  let deps := (tool.getFileDepsFn vp).getD []
                  let got := cacheGet hash fs cache k deps
                  match got.1 with
                  | some v => ⟨.ok v, reg1, got.2, [.validateEv, .cacheGetEv]⟩
                  | none =>
                      let result := tool.applyFn vp fs
                      let deps2 := (tool.getFileDepsFn vp).getD []
                      ⟨.ok result, reg1,
                        cacheSet hash fs got.2 k result deps2,
                        [.validateEv, .cacheGetEv, .preHookEv, .applyEv,
                         .postHookEv, .cacheSetEv]⟩
            | none =>
                ⟨.ok (tool.applyFn vp fs), reg1, cache,
                  [.validateEv, .preHookEv, .applyEv, .postHookEv]⟩

/-! ## `ReadFileTool.get_cache_key` (`src/tools/file_tools.py`) -/

/-- `ReadFileTool.get_cache_key`: `"read_file:{path}:{mtime}"` when the
path exists, `"read_file:{path}:0"` otherwise.  The mtime (a float in
Python) is modelled as a natural number. -/
def readFileGetCacheKey (kwargs : Params) (fs : FS) : Option String :=
  let filePath := (assocLookup kwargs "file_path").getD ""
  match fs filePath with
  | some fd => some ("read_file:" ++ filePath ++ ":" ++ toString fd.mtime)
  | none => some ("read_file:" ++ filePath ++ ":0")

/-! ## Operation sequences over one `CacheManager` -/

/-- One call to the public mutating interface of `CacheManager`. -/
inductive CacheOp where
  | opGet (fs : FS) (cacheKey : String) (fileDeps : List String)
  | opSet (fs : FS) (cacheKey : String) (value : String) (fileDeps : List String)
  | opInvalidate (fs : FS) (filePath : String)
  | opClear

/-- The state after one cache operation. -/
def runOp (hash : String → String) (st : CacheState) : CacheOp → CacheState
  | .opGet fs k deps => (cacheGet hash fs st k deps).2
  | .opSet fs k v deps => cacheSet hash fs st k v deps
  | .opInvalidate fs p => (invalidateFile hash fs st p).2
  | .opClear => (cacheClear st).2

/-- The state after a sequence of cache operations. -/
def runOps (hash : String → String) : CacheState → List CacheOp → CacheState
  | st, [] => st
  | st, op :: ops => runOps hash (runOp hash st op) ops

/-- The number of `get` calls in a sequence. -/
def countGets : List CacheOp → Nat
  | [] => 0
  | .opGet _ _ _ :: ops => countGets ops + 1
  | _ :: ops => countGets ops

/-! ## Concrete fixtures for witnesses and counterexamples -/

/-- File system with `/a` containing `"x"`. -/
def fsC1a : FS := fun p => if p = "/a" then some ⟨"x", 1⟩ else none

/-- File system with `/a` containing `"y"` (the dependency changed). -/
def fsC1b : FS := fun p => if p = "/a" then some ⟨"y", 2⟩ else none

/-- Empty file system. -/
def fsC2 : FS := fun _ => none

/-- A cacheable tool: fixed cache key `"ck"`, no file dependencies. -/
def toolC2 : ToolImpl :=
  { metadata := { name := "t", description := "d", category := "c",
                  contextModes := ["general"] },
    getCacheKeyFn := fun _ _ => some "ck",
    applyFn := fun _ _ => "computed" }

/-- Registry holding `toolC2`, already instantiated. -/
def regC2 : RegistryState :=
  { initRegistry with tools := [("t", toolC2)], instances := [("t", toolC2)] }

/-- Cache holding a value under `toolC2`'s composite key. -/
def cacheC2 : CacheState :=
  { initCache with entries := [⟨buildCacheKey id fsC2 "ck" [], "cached", 0⟩] }

/-- File system with files `a` and `b`. -/
def fsC3 : FS :=
  fun p => if p = "a" then some ⟨"u", 1⟩
           else if p = "b" then some ⟨"w", 1⟩ else none

/-- First registration under the name `t4`. -/
def toolC4a : ToolImpl :=
  { metadata := { name := "t4", description := "first", category := "c",
                  contextModes := ["general"] },
    applyFn := fun _ _ => "A" }

/-- Second registration under the same name `t4`. -/
def toolC4b : ToolImpl :=
  { metadata := { name := "t4", description := "second", category := "c",
                  contextModes := ["general"] },
    applyFn := fun _ _ => "B" }

/-- Register `toolC4a`, look it up (constructing its instance), then
register `toolC4b` under the same name. -/
def regC4 : RegistryState :=
  registerTool ((getTool (registerTool initRegistry toolC4a) "t4").2) toolC4b

/-- Empty file system (no `/a`). -/
def fsC5a : FS := fun _ => none

/-- File system where `/a` exists with mtime 5. -/
def fsC5b : FS := fun p => if p = "/a" then some ⟨"x", 5⟩ else none

/-- Same `/a` record as `fsC5b`, but an unrelated `/b` added. -/
def fsC5c : FS :=
  fun p => if p = "/b" then some ⟨"z", 9⟩ else fsC5b p

/-- File system with `/a` containing `"x"` (store time). -/
def fsC6a : FS := fun p => if p = "/a" then some ⟨"x", 1⟩ else none

/-- File system after `/a` changed to `"y"`. -/
def fsC6b : FS := fun p => if p = "/a" then some ⟨"y", 2⟩ else none

/-- Cache state after `set("k", "v", ["/a"])` with `/a` containing `"x"`,
using the real MD5 digest. -/
def stC6 : CacheState := cacheSet md5Hex fsC6a initCache "k" "v" ["/a"]

/-! ## Helper lemmas on strings and `joinParts` -/

theorem strlen_append (a b : String) : (a ++ b).length = a.length + b.length := by
  show (a ++ b).data.length = a.data.length + b.data.length
  rw [String.data_append, List.length_append]

theorem joinParts_length (p : String) (ps : List String) :
    (joinParts (p :: ps)).length
      = p.length + (ps.map (fun x => x.length + 1)).sum := by
  induction ps generalizing p with
  | nil => simp [joinParts]
  | cons q qs ih =>
      have hbar : ("|" : String).length = 1 := rfl
      simp only [joinParts, strlen_append, List.map_cons, List.sum_cons, ih q, hbar]
      omega

/-- `joinParts` is injective on lists whose entries have matching
lengths position by position. -/
theorem joinParts_inj : ∀ {xs ys : List String},
    List.Forall₂ (fun a b => a.length = b.length) xs ys →
    joinParts xs = joinParts ys → xs = ys := by
  intro xs ys hl
  induction hl with
  | nil => intro _; rfl
  | @cons a b as bs hab htail ih =>
      intro hj
      cases htail with
      | nil =>
          simp only [joinParts] at hj
          rw [hj]
      | @cons c d2 cs ds hcd htl =>
          simp only [joinParts] at hj
          have hdata := congrArg String.data hj
          simp only [String.data_append] at hdata
          rw [List.append_assoc, List.append_assoc] at hdata
          have hlen : a.data.length = b.data.length := hab
          obtain ⟨h1, h2⟩ := List.append_inj hdata hlen
          have h3 := List.append_cancel_left h2
          have h4 : joinParts (c :: cs) = joinParts (d2 :: ds) := String.ext h3
          rw [String.ext h1, ih h4]

theorem forall₂_map_of_forall {P : String → String → Prop}
    (F G : String → String) :
    ∀ (l : List String), (∀ p ∈ l, P (F p) (G p)) →
      List.Forall₂ P (l.map F) (l.map G)
  | [], _ => .nil
  | p :: ps, h =>
      .cons (h p (.head ps))
        (forall₂_map_of_forall F G ps (fun q hq => h q (.tail p hq)))

theorem map_eq_on_mem {F G : String → String} :
    ∀ {l : List String}, l.map F = l.map G → ∀ p ∈ l, F p = G p := by
  intro l
  induction l with
  | nil => intro _ p hp; cases hp
  | cons a as ih =>
      intro h p hp
      simp only [List.map_cons, List.cons.injEq] at h
      cases hp with
      | head => exact h.1
      | tail _ hmem => exact ih h.2 p hmem

theorem sum_count_swap (d : String) (F G : String → Nat) :
    ∀ (l : List String), (∀ p ∈ l, p ≠ d → F p = G p) →
      (l.map F).sum + l.count d * G d = (l.map G).sum + l.count d * F d := by
  intro l
  induction l with
  | nil => intro _; simp
  | cons a as ih =>
      intro h
      have ih2 := ih (fun p hp hpd => h p (.tail a hp) hpd)
      by_cases had : a = d
      · subst had
        rw [List.map_cons, List.map_cons, List.sum_cons, List.sum_cons,
          List.count_cons_self, Nat.succ_mul, Nat.succ_mul]
        generalize (as.map F).sum = x at ih2 ⊢
        generalize (as.map G).sum = y at ih2 ⊢
        generalize as.count a * G a = u at ih2 ⊢
        generalize as.count a * F a = v at ih2 ⊢
        omega
      · have hFG := h a (.head as) had
        have hcnt : (a :: as).count d = as.count d := by
          rw [List.count_cons]
          simp [had, Ne.symm had]
        rw [List.map_cons, List.map_cons, List.sum_cons, List.sum_cons, hcnt,
          hFG, Nat.add_assoc, Nat.add_assoc, ih2]

/-- The crux of content-hash invalidation: if the `"|"`-joined key-part
strings agree while all dependencies other than `d` contribute identical
fragments, then `d`'s fragment agrees too. -/
theorem dep_hash_eq_of_joined_eq (base d : String) (deps : List String)
    (F G : String → String) (hd : d ∈ deps)
    (hoth : ∀ p ∈ deps, p ≠ d → F p = G p)
    (hj : joinParts (base :: deps.map (fun p => p ++ ":" ++ F p)) =
          joinParts (base :: deps.map (fun p => p ++ ":" ++ G p))) :
    F d = G d := by
  have hlen := congrArg String.length hj
  rw [joinParts_length, joinParts_length, List.map_map, List.map_map] at hlen
  simp only [Function.comp_def] at hlen
  have hsum : (deps.map (fun p => (p ++ ":" ++ F p).length + 1)).sum
            = (deps.map (fun p => (p ++ ":" ++ G p).length + 1)).sum :=
    Nat.add_left_cancel hlen
  have hswap := sum_count_swap d (fun p => (p ++ ":" ++ F p).length + 1)
      (fun p => (p ++ ":" ++ G p).length + 1) deps
      (fun p hp hpd => by
        show (p ++ ":" ++ F p).length + 1 = (p ++ ":" ++ G p).length + 1
        rw [hoth p hp hpd])
  beta_reduce at hswap
  have hcount : 0 < deps.count d := List.count_pos_iff.mpr hd
  have hlen2 : ((d ++ ":" ++ G d).length + 1) = ((d ++ ":" ++ F d).length + 1) :=
    Nat.eq_of_mul_eq_mul_left hcount (by omega)
  have hflen : (F d).length = (G d).length := by
    simp only [strlen_append] at hlen2
    omega
  have hall : List.Forall₂ (fun a b => a.length = b.length)
      (deps.map (fun p => p ++ ":" ++ F p))
      (deps.map (fun p => p ++ ":" ++ G p)) := by
    apply forall₂_map_of_forall
    intro p hp
    by_cases hpd : p = d
    · subst hpd
      simp only [strlen_append, hflen]
    · rw [hoth p hp hpd]
  have hlists := joinParts_inj (List.Forall₂.cons rfl hall) hj
  have htails := (List.cons.inj hlists).2
  have hfrag := map_eq_on_mem htails d hd
  have hdata := congrArg String.data hfrag
  simp only [String.data_append] at hdata
  exact String.ext (List.append_cancel_left hdata)

/-- Two file systems that assign a different hash to some dependency `d`
(and the same hash to every other dependency) yield different composite
keys, provided the digest function is injective. -/
theorem buildCacheKey_ne_of_dep_change (hash : String → String)
    (hinj : Function.Injective hash) (fs1 fs2 : FS) (base : String)
    (deps : List String) (d : String) (hd : d ∈ deps)
    (hch : getFileHash hash fs1 d ≠ getFileHash hash fs2 d)
    (hoth : ∀ p ∈ deps, p ≠ d →
        getFileHash hash fs1 p = getFileHash hash fs2 p) :
    buildCacheKey hash fs1 base deps ≠ buildCacheKey hash fs2 base deps := by
  intro hk
  unfold buildCacheKey at hk
  exact hch (dep_hash_eq_of_joined_eq base d deps _ _ hd hoth (hinj hk))

/-! ## Helper lemmas on cache entries and association lists -/

theorem mem_insertByAtime {e x : Entry} :
    ∀ {l : List Entry}, x ∈ insertByAtime e l → x = e ∨ x ∈ l := by
  intro l
  induction l with
  | nil =>
      intro h
      simp only [insertByAtime, List.mem_singleton] at h
      exact .inl h
  | cons y ys ih =>
      intro h
      simp only [insertByAtime] at h
      by_cases hc : e.atime ≤ y.atime
      · rw [if_pos hc] at h
        simp only [List.mem_cons] at h
        rcases h with h | h
        · exact .inl h
        · exact .inr (by simpa using h)
      · rw [if_neg hc] at h
        simp only [List.mem_cons] at h
        rcases h with h | h
        · exact .inr (by simp [h])
        · rcases ih h with h2 | h2
          · exact .inl h2
          · exact .inr (.tail y h2)

theorem mem_sortByAtime {x : Entry} :
    ∀ {l : List Entry}, x ∈ sortByAtime l → x ∈ l := by
  intro l
  induction l with
  | nil => intro h; exact h
  | cons y ys ih =>
      intro h
      rcases mem_insertByAtime h with h2 | h2
      · simp [h2]
      · exact .tail y (ih h2)

theorem mem_evictLoop {maxB : Nat} {x : Entry} :
    ∀ {l : List Entry} {t : Nat}, x ∈ evictLoop maxB l t → x ∈ l := by
  intro l
  induction l with
  | nil => intro t h; exact absurd h (by simp [evictLoop])
  | cons y ys ih =>
      intro t h
      simp only [evictLoop] at h
      by_cases hc : t - entrySize y ≤ maxB
      · rw [if_pos hc] at h
        exact .tail y h
      · rw [if_neg hc] at h
        exact .tail y (ih h)

theorem mem_cleanup {maxB : Nat} {x : Entry} {l : List Entry}
    (h : x ∈ cleanup maxB l) : x ∈ l := by
  simp only [cleanup] at h
  by_cases hc : (l.map entrySize).sum ≤ maxB
  · rw [if_pos hc] at h
    exact h
  · rw [if_neg hc] at h
    exact mem_sortByAtime (mem_evictLoop h)

theorem entryLookup_none {k : String} :
    ∀ {l : List Entry}, (∀ e ∈ l, e.key ≠ k) → entryLookup l k = none := by
  intro l
  induction l with
  | nil => intro _; rfl
  | cons e es ih =>
      intro h
      simp only [entryLookup]
      rw [if_neg (h e (.head es))]
      exact ih (fun x hx => h x (.tail e hx))

theorem assocLookup_set_self {α : Type} (k : String) (v : α) :
    ∀ (l : List (String × α)), assocLookup (assocSet l k v) k = some v := by
  intro l
  induction l with
  | nil => simp [assocSet, assocLookup]
  | cons p rest ih =>
      by_cases h : p.1 = k
      · simp [assocSet, assocLookup, h]
      · simp only [assocSet]
        rw [if_neg h]
        simp only [assocLookup]
        rw [if_neg h]
        exact ih

/-! ## Helper lemmas on the hit and miss counters -/

theorem cacheGet_counters (hash : String → String) (fs : FS) (st : CacheState)
    (k : String) (deps : List String) :
    ((cacheGet hash fs st k deps).2.hits = st.hits + 1 ∧
     (cacheGet hash fs st k deps).2.misses = st.misses) ∨
    ((cacheGet hash fs st k deps).2.hits = st.hits ∧
     (cacheGet hash fs st k deps).2.misses = st.misses + 1) := by
  simp only [cacheGet]
  cases h : entryLookup st.entries (buildCacheKey hash fs k deps) with
  | none => exact .inr ⟨rfl, rfl⟩
  | some e => exact .inl ⟨rfl, rfl⟩

theorem cacheSet_counters (hash : String → String) (fs : FS) (st : CacheState)
    (k v : String) (deps : List String) :
    (cacheSet hash fs st k v deps).hits = st.hits ∧
    (cacheSet hash fs st k v deps).misses = st.misses := ⟨rfl, rfl⟩

theorem invalidateFile_counters (hash : String → String) (fs : FS)
    (st : CacheState) (p : String) :
    (invalidateFile hash fs st p).2.hits = st.hits ∧
    (invalidateFile hash fs st p).2.misses = st.misses := by
  simp only [invalidateFile]
  split
  · exact ⟨rfl, rfl⟩
  · split
    · exact ⟨rfl, rfl⟩
    · exact ⟨rfl, rfl⟩

theorem cacheClear_counters (st : CacheState) :
    (cacheClear st).2.hits = st.hits ∧ (cacheClear st).2.misses = st.misses :=
  ⟨rfl, rfl⟩

theorem runOp_counters (hash : String → String) (st : CacheState) (op : CacheOp) :
    (runOp hash st op).hits + (runOp hash st op).misses
      = st.hits + st.misses + countGets [op] := by
  cases op with
  | opGet fs k deps =>
      rcases cacheGet_counters hash fs st k deps with ⟨h1, h2⟩ | ⟨h1, h2⟩ <;>
        simp [runOp, countGets, h1, h2] <;> omega
  | opSet fs k v deps => simp [runOp, countGets, cacheSet]
  | opInvalidate fs p =>
      rcases invalidateFile_counters hash fs st p with ⟨h1, h2⟩
      simp [runOp, countGets, h1, h2]
  | opClear => simp [runOp, countGets, cacheClear]

theorem runOps_counters (hash : String → String) :
    ∀ (ops : List CacheOp) (st : CacheState),
      (runOps hash st ops).hits + (runOps hash st ops).misses
        = st.hits + st.misses + countGets ops := by
  intro ops
  induction ops with
  | nil => intro st; simp [runOps, countGets]
  | cons op ops ih =>
      intro st
      have h1 := runOp_counters hash st op
      have h2 := ih (runOp hash st op)
      simp only [runOps]
      rw [h2, h1]
      cases op with
      | opGet fs k deps => simp [countGets]; omega
      | opSet fs k v deps => simp [countGets]
      | opInvalidate fs p => simp [countGets]
      | opClear => simp [countGets]

/-! ## The claims -/

/-- **C1.** If a value was stored with `set(baseKey, value, deps)` and
afterwards the content of a dependency `d ∈ deps` changes — its content
hash at read time differs from its hash at store time, the other
dependencies unchanged — then a subsequent `get(baseKey, deps)` misses:
it returns no value and increments the miss counter, because the
composite key embeds the current content hashes of all dependencies
(stated for any injective digest function, the collision-freeness
idealization of MD5; the cache directory starts empty, matching a fresh
store of the value). -/
theorem c1_dependency_change_misses (hash : String → String)
    (hinj : Function.Injective hash) (fs1 fs2 : FS) (st0 : CacheState)
    (hempty : st0.entries = []) (base value : String) (deps : List String)
    (d : String) (hd : d ∈ deps)
    (hch : getFileHash hash fs1 d ≠ getFileHash hash fs2 d)
    (hoth : ∀ p ∈ deps, p ≠ d →
        getFileHash hash fs1 p = getFileHash hash fs2 p) :
    (cacheGet hash fs2 (cacheSet hash fs1 st0 base value deps) base deps).1
      = none ∧
    (cacheGet hash fs2 (cacheSet hash fs1 st0 base value deps) base deps).2.misses
      = (cacheSet hash fs1 st0 base value deps).misses + 1 := by
  have hkey : buildCacheKey hash fs2 base deps ≠ buildCacheKey hash fs1 base deps := by
    intro h
    exact buildCacheKey_ne_of_dep_change hash hinj fs1 fs2 base deps d hd hch hoth h.symm
  have hst1 : (cacheSet hash fs1 st0 base value deps).entries
      = cleanup (st0.maxSizeMb * 1024 * 1024)
          [⟨buildCacheKey hash fs1 base deps, value, st0.clock⟩] := by
    simp [cacheSet, hempty, entrySet]
  have hlookup : entryLookup (cacheSet hash fs1 st0 base value deps).entries
      (buildCacheKey hash fs2 base deps) = none := by
    apply entryLookup_none
    intro e he hk
    rw [hst1] at he
    have hmem := mem_cleanup he
    simp only [List.mem_singleton] at hmem
    rw [hmem] at hk
    exact hkey hk.symm
  constructor
  · simp [cacheGet, hlookup]
  · simp [cacheGet, hlookup]

/-- Witness for C1: a concrete run with the identity digest, one
dependency `/a` whose content changes from `"x"` to `"y"`. -/
theorem c1_dependency_change_misses_witness :
    (cacheGet id fsC1b (cacheSet id fsC1a initCache "k" "v" ["/a"]) "k" ["/a"]).1
      = none ∧
    (cacheGet id fsC1b (cacheSet id fsC1a initCache "k" "v" ["/a"]) "k" ["/a"]).2.misses
      = (cacheSet id fsC1a initCache "k" "v" ["/a"]).misses + 1 :=
  c1_dependency_change_misses id (fun _ _ h => h) fsC1a fsC1b initCache rfl
    "k" "v" ["/a"] "/a" (by decide) (by decide) (by decide)

/-- **C2.** When a registered tool's `get_cache_key` on the validated
parameters returns a truthy key and the cache holds an entry under the
composite key built from it and the declared dependencies,
`execute_tool` returns the cached value and the pre-execute hook,
`apply` and the post-execute hook are not invoked. -/
theorem c2_cache_hit_skips_hooks (hash : String → String) (fs : FS)
    (reg reg1 : RegistryState) (cache : CacheState) (name : String)
    (context : Option String) (kwargs vp : Params) (tool : ToolImpl)
    (k : String) (e : Entry)
    (hres : getTool reg name = (some tool, reg1))
    (hctx : canExecute tool.metadata context = true)
    (hval : tool.validateParams kwargs = .ok vp)
    (hkey : tool.getCacheKeyFn vp fs = some k)
    (hk : k.isEmpty = false)
    (hent : entryLookup cache.entries
        (buildCacheKey hash fs k ((tool.getFileDepsFn vp).getD [])) = some e) :
    (executeTool hash fs reg cache name context kwargs).outcome = .ok e.value ∧
    ExecEvent.preHookEv ∉ (executeTool hash fs reg cache name context kwargs).trace ∧
    ExecEvent.applyEv ∉ (executeTool hash fs reg cache name context kwargs).trace ∧
    ExecEvent.postHookEv ∉ (executeTool hash fs reg cache name context kwargs).trace := by
  have hrun : executeTool hash fs reg cache name context kwargs =
      ⟨.ok e.value, reg1,
        { cache with
            entries := entryTouch cache.entries
              (buildCacheKey hash fs k ((tool.getFileDepsFn vp).getD [])) cache.clock,
            hits := cache.hits + 1, clock := cache.clock + 1 },
        [.validateEv, .cacheGetEv]⟩ := by
    simp only [executeTool, hres, hctx, hval, hkey, hk, Bool.not_true,
      Bool.false_eq_true, if_false, cacheGet, hent]
    simp
  rw [hrun]
  exact ⟨rfl, by simp, by simp, by simp⟩

/-- Witness for C2: a concrete registry, tool and cache where the hit
returns the stored `"cached"` value without running hooks or apply. -/
theorem c2_cache_hit_skips_hooks_witness :
    (executeTool id fsC2 regC2 cacheC2 "t" none []).outcome = .ok "cached" ∧
    ExecEvent.preHookEv ∉ (executeTool id fsC2 regC2 cacheC2 "t" none []).trace ∧
    ExecEvent.applyEv ∉ (executeTool id fsC2 regC2 cacheC2 "t" none []).trace ∧
    ExecEvent.postHookEv ∉ (executeTool id fsC2 regC2 cacheC2 "t" none []).trace :=
  c2_cache_hit_skips_hooks id fsC2 regC2 regC2 cacheC2 "t" none [] [] toolC2
    "ck" ⟨buildCacheKey id fsC2 "ck" [], "cached", 0⟩
    rfl rfl rfl rfl rfl rfl

/-- **C8.** `execute_tool` on a name that is neither instantiated nor
registered raises the not-found `ToolError` and leaves the cache state
(entries, dependency hashes and all three counters) entirely unchanged;
no cache call appears in the trace. -/
theorem c8_unknown_tool_untouched_cache (hash : String → String) (fs : FS)
    (reg : RegistryState) (cache : CacheState) (name : String)
    (context : Option String) (kwargs : Params)
    (hinst : assocLookup reg.instances name = none)
    (htools : assocLookup reg.tools name = none) :
    (executeTool hash fs reg cache name context kwargs).outcome
      = .error ⟨name, "Tool " ++ name ++ " not found"⟩ ∧
    (executeTool hash fs reg cache name context kwargs).cache = cache ∧
    (executeTool hash fs reg cache name context kwargs).trace = [] := by
  have hres : getTool reg name = (none, reg) := by
    simp [getTool, hinst, htools]
  simp [executeTool, hres]

/-- Witness for C8: executing the unknown name `"ghost"` on the initial
registry. -/
theorem c8_unknown_tool_untouched_cache_witness :
    (executeTool id fsC2 initRegistry initCache "ghost" none []).outcome
      = .error ⟨"ghost", "Tool " ++ "ghost" ++ " not found"⟩ ∧
    (executeTool id fsC2 initRegistry initCache "ghost" none []).cache = initCache ∧
    (executeTool id fsC2 initRegistry initCache "ghost" none []).trace = [] :=
  c8_unknown_tool_untouched_cache id fsC2 initRegistry initCache "ghost" none []
    rfl rfl

/-- **C3, counterexample.** `_build_cache_key` does *not* sort the
dependency list: with the real MD5 digest, the two orderings of the same
dependency set `{a, b}` (contents unchanged) produce different composite
keys, and a value stored under the ordering `[a, b]` is a miss — not a
hit — when read back with the ordering `[b, a]`. -/
theorem c3_ordering_counterexample :
    buildCacheKey md5Hex fsC3 "k" ["a", "b"] ≠ buildCacheKey md5Hex fsC3 "k" ["b", "a"] ∧
    (cacheGet md5Hex fsC3 (cacheSet md5Hex fsC3 initCache "k" "v" ["a", "b"])
        "k" ["b", "a"]).1 = none := by
  constructor
  · decide
  · decide

/-- **C3, amended.** The composite key is built from the base key and
the `(dependency-path, content-hash)` pairs in the *caller-supplied*
order; `get` and `set` given the same ordering (and unchanged files)
compute the same composite key, so a stored value is a hit when read
back with the same ordering, while distinct orderings in general produce
distinct keys (see the counterexample). -/
theorem c3_same_ordering_hits (hash : String → String) (fs : FS)
    (st0 : CacheState) (hempty : st0.entries = []) (base value : String)
    (deps : List String)
    (hsize : value.length ≤ st0.maxSizeMb * 1024 * 1024) :
    (cacheGet hash fs (cacheSet hash fs st0 base value deps) base deps).1
      = some value ∧
    (cacheGet hash fs (cacheSet hash fs st0 base value deps) base deps).2.hits
      = (cacheSet hash fs st0 base value deps).hits + 1 := by
  have hst1 : (cacheSet hash fs st0 base value deps).entries
      = [⟨buildCacheKey hash fs base deps, value, st0.clock⟩] := by
    simp only [cacheSet, hempty, entrySet, cleanup, List.map_cons, List.map_nil,
      List.sum_cons, List.sum_nil, entrySize]
    rw [if_pos (by simpa using hsize)]
  have hlookup : entryLookup (cacheSet hash fs st0 base value deps).entries
      (buildCacheKey hash fs base deps)
      = some ⟨buildCacheKey hash fs base deps, value, st0.clock⟩ := by
    rw [hst1]
    simp [entryLookup]
  constructor
  · simp [cacheGet, hlookup]
  · simp [cacheGet, hlookup]

/-- Witness for the amended C3: a concrete store-then-read with the same
ordering `[a, b]` hits and returns the stored value. -/
theorem c3_same_ordering_hits_witness :
    (cacheGet id fsC3 (cacheSet id fsC3 initCache "k" "v" ["a", "b"])
        "k" ["a", "b"]).1 = some "v" ∧
    (cacheGet id fsC3 (cacheSet id fsC3 initCache "k" "v" ["a", "b"])
        "k" ["a", "b"]).2.hits
      = (cacheSet id fsC3 initCache "k" "v" ["a", "b"]).hits + 1 :=
  c3_same_ordering_hits id fsC3 initCache rfl "k" "v" ["a", "b"] (by decide)

/-- **C4, counterexample.** Register `toolC4a` under `"t4"`, look the
tool up (constructing and memoizing its instance), then register
`toolC4b` under the same name: a subsequent `get_tool` still returns the
*first* class's instance (description `"first"`), not the most recently
registered class's tool (description `"second"`), because
`register_tool` never clears `_instances`. -/
theorem c4_stale_instance_counterexample :
    ((getTool regC4 "t4").1).map (fun t => t.metadata.description) = some "first" ∧
    toolC4b.metadata.description = "second" :=
  ⟨rfl, rfl⟩

/-- **C4, amended.** Re-registering a name deterministically overwrites
the class mapping — last registration wins — and every subsequent
`get_tool` resolves to the most recently registered class, *provided the
name had not yet been instantiated*; an instance already constructed by
an earlier `get_tool` is kept and keeps being returned. -/
theorem c4_last_registration_wins_uninstantiated (reg : RegistryState)
    (A B : ToolImpl) (n : String) (_hA : A.metadata.name = n)
    (hB : B.metadata.name = n)
    (hni : assocLookup reg.instances n = none) :
    (getTool (registerTool (registerTool reg A) B) n).1 = some B := by
  have hinst : (registerTool (registerTool reg A) B).instances = reg.instances := rfl
  have htools : (registerTool (registerTool reg A) B).tools
      = assocSet (assocSet reg.tools A.metadata.name A) B.metadata.name B := rfl
  simp only [getTool, hinst, hni, htools, hB]
  rw [assocLookup_set_self]

/-- Witness for the amended C4: registering `toolC4a` then `toolC4b` on
a fresh registry (no instance constructed in between) resolves `"t4"` to
`toolC4b`. -/
theorem c4_last_registration_wins_uninstantiated_witness :
    (getTool (registerTool (registerTool initRegistry toolC4a) toolC4b) "t4").1
      = some toolC4b :=
  c4_last_registration_wins_uninstantiated initRegistry toolC4a toolC4b "t4"
    rfl rfl rfl

/-- **C5, counterexample.** `ReadFileTool.get_cache_key` is *not* a
function of the validated parameters only: with identical parameters
`{file_path: "/a"}`, it returns different keys depending on whether
`/a` exists and on its modification time. -/
theorem c5_read_file_key_reads_fs :
    readFileGetCacheKey [("file_path", "/a")] fsC5a ≠
    readFileGetCacheKey [("file_path", "/a")] fsC5b := by
  decide

/-- **C5, amended.** `ReadFileTool.get_cache_key` is a deterministic
function of the validated parameters *and* the file-system record of the
`file_path` parameter (its existence and mtime): two invocations with
identical parameters agree whenever that one file record agrees,
independent of the rest of the file system. -/
theorem c5_key_function_of_params_and_file (kwargs : Params) (fs1 fs2 : FS)
    (h : fs1 ((assocLookup kwargs "file_path").getD "")
       = fs2 ((assocLookup kwargs "file_path").getD "")) :
    readFileGetCacheKey kwargs fs1 = readFileGetCacheKey kwargs fs2 := by
  simp only [readFileGetCacheKey]
  rw [h]

/-- Witness for the amended C5: `fsC5b` and `fsC5c` differ (an unrelated
`/b` was added) but agree on `/a`, so the keys agree. -/
theorem c5_key_function_of_params_and_file_witness :
    readFileGetCacheKey [("file_path", "/a")] fsC5b =
    readFileGetCacheKey [("file_path", "/a")] fsC5c :=
  c5_key_function_of_params_and_file [("file_path", "/a")] fsC5b fsC5c
    (by decide)

/-- **C6.** The failing run, evaluated on the real MD5 digest: after
`set("k", "v", ["/a"])` with `/a` containing `"x"` (one stored entry,
`/a`'s hash recorded) and a change of `/a`'s content to `"y"` (so the
current hash differs from the recorded one), `invalidate_file("/a")`
deletes *nothing* and returns 0 — the claim (and the method's own
docstring) promise deletion of the dependent entries and a nonzero
count.  The first 8 hex characters of `md5("/a")` simply never occur in
the stored entry's filename. -/
theorem c6_invalidate_file_heuristic_fails :
    (invalidateFile md5Hex fsC6b stC6 "/a").1 = 0 ∧
    (invalidateFile md5Hex fsC6b stC6 "/a").2.entries = stC6.entries ∧
    stC6.entries.length = 1 ∧
    assocLookup stC6.fileHashes "/a" = some (md5Hex "x") ∧
    getFileHash md5Hex fsC6b "/a" ≠ md5Hex "x" := by
  refine ⟨?_, ?_, ?_, ?_, ?_⟩
  · decide
  · decide
  · decide
  · decide
  · decide

/-- **C7.** `clear()` empties the entry list and the dependency-hash
map, returns the number of entries deleted, a subsequent `get_stats`
reports `entry_count = 0`, and the hit, miss and invalidation counters
are unchanged. -/
theorem c7_clear_frame (st : CacheState) :
    (cacheClear st).1 = st.entries.length ∧
    (cacheClear st).2.entries = [] ∧
    (cacheClear st).2.fileHashes = [] ∧
    (getStats (cacheClear st).2).entryCount = 0 ∧
    (cacheClear st).2.hits = st.hits ∧
    (cacheClear st).2.misses = st.misses ∧
    (cacheClear st).2.invalidations = st.invalidations := by
  simp [cacheClear, getStats]

/-- **C9.** Every `get` increments exactly one of the hit and miss
counters by exactly one; `set`, `invalidate_file` and `clear` never
change them; hence over any sequence of cache operations,
`hits + misses` grows by exactly the number of `get` calls. -/
theorem c9_hits_misses_accounting :
    (∀ (hash : String → String) (fs : FS) (st : CacheState) (k : String)
        (deps : List String),
      ((cacheGet hash fs st k deps).2.hits = st.hits + 1 ∧
       (cacheGet hash fs st k deps).2.misses = st.misses) ∨
      ((cacheGet hash fs st k deps).2.hits = st.hits ∧
       (cacheGet hash fs st k deps).2.misses = st.misses + 1)) ∧
    (∀ (hash : String → String) (fs : FS) (st : CacheState) (k v : String)
        (deps : List String),
      (cacheSet hash fs st k v deps).hits = st.hits ∧
      (cacheSet hash fs st k v deps).misses = st.misses) ∧
    (∀ (hash : String → String) (fs : FS) (st : CacheState) (p : String),
      (invalidateFile hash fs st p).2.hits = st.hits ∧
      (invalidateFile hash fs st p).2.misses = st.misses) ∧
    (∀ st : CacheState,
      (cacheClear st).2.hits = st.hits ∧ (cacheClear st).2.misses = st.misses) ∧
    (∀ (hash : String → String) (ops : List CacheOp) (st : CacheState),
      (runOps hash st ops).hits + (runOps hash st ops).misses
        = st.hits + st.misses + countGets ops) :=
  ⟨cacheGet_counters, cacheSet_counters, invalidateFile_counters,
   cacheClear_counters, fun hash ops st => runOps_counters hash ops st⟩

/-- **C10.** `can_execute` applies the membership test only to truthy
(non-empty) context strings, so the empty-string context behaves exactly
like an omitted context: it returns `True` for every tool, whether or
not `""` is among the declared `context_modes`. -/
theorem c10_empty_context_is_truthy_bypass (md : ToolMetadata) :
    canExecute md (some "") = true ∧ canExecute md none = true := by
  constructor
  · simp only [canExecute]
    rw [if_neg]
    intro hcon
    exact hcon.1 rfl
  · rfl

end MCP
